import Mathlib

/-!
Verification of the metrics-aggregation core (`process_data` in `src/app.py`)
of the meta_report_service repository.

The input of `process_data` is a list of loosely-typed mapping records as
decoded from JSON (`response.json()['data']`).  We embed JSON values as the
inductive `Json`, a record as an association list `Record`, and the float
values flowing through the pandas pipeline as `PFloat` (an IEEE-style float
with exact rational payloads: `nan`, `inf`, `ninf`, or a finite `val q`).
Fallible steps of the pipeline (pandas `KeyError` on a missing column,
`KeyError`/`TypeError`/`ValueError` raised inside the `actions` /
`action_values` extraction lambdas, `astype(int)` on non-finite values,
unhashable group keys) are modelled with `Except String`.
-/

/-- JSON values, as produced by decoding the API response. -/
inductive Json where
  | null
  | bool (b : Bool)
  | num (q : ℚ)
  | str (s : String)
  | arr (xs : List Json)
  | obj (kvs : List (String × Json))

/-- A raw campaign record: one JSON object, i.e. an association list. -/
abbrev Record := List (String × Json)

/-- Field access in a JSON object / Python dict (first binding wins). -/
def jlookup (kvs : List (String × Json)) (k : String) : Option Json :=
  match kvs.find? (fun p => p.1 == k) with
  | some p => some p.2
  | none => none

/-- Python `x == s` for a decoded JSON value `x` and a string literal `s`:
only a string with the same contents compares equal. -/
def jsonIsStr (v : Json) (s : String) : Bool :=
  match v with
  | .str t => t == s
  | _ => false

/-- Model of a pandas/numpy float64 cell with exact rational payload. -/
inductive PFloat where
  | nan
  | inf
  | ninf
  | val (q : ℚ)
deriving DecidableEq, Repr

/-- IEEE-754 addition on `PFloat` (exact on finite payloads). -/
def pfAdd : PFloat → PFloat → PFloat
  | .nan, _ => .nan
  | _, .nan => .nan
  | .inf, .ninf => .nan
  | .ninf, .inf => .nan
  | .inf, _ => .inf
  | _, .inf => .inf
  | .ninf, _ => .ninf
  | _, .ninf => .ninf
  | .val a, .val b => .val (a + b)

/-- IEEE-754 division on `PFloat` (exact on finite payloads; the model has a
single zero, whose sign is taken as positive). -/
def pfDiv : PFloat → PFloat → PFloat
  | .nan, _ => .nan
  | _, .nan => .nan
  | .inf, .inf => .nan
  | .inf, .ninf => .nan
  | .ninf, .inf => .nan
  | .ninf, .ninf => .nan
  | .inf, .val q => if q < 0 then .ninf else .inf
  | .ninf, .val q => if q < 0 then .inf else .ninf
  | .val _, .inf => .val 0
  | .val _, .ninf => .val 0
  | .val a, .val b =>
    if b = 0 then (if a = 0 then .nan else if a < 0 then .ninf else .inf)
    else .val (a / b)

/-- Pandas `Series.sum()` with its default `skipna=True`: `nan` cells are
skipped, infinities are summed (so `inf` and `-inf` together give `nan`). -/
def pfSum (l : List PFloat) : PFloat :=
  l.foldr (fun p acc => if p = .nan then acc else pfAdd p acc) (.val 0)

/-- Comparison `x > 0` on a float (false for `nan`). -/
def pfGtZero : PFloat → Bool
  | .val q => decide (0 < q)
  | .inf => true
  | .ninf => false
  | .nan => false

/-- A float is finite. -/
def pfIsVal : PFloat → Bool
  | .val _ => true
  | _ => false

/-- A float is non-negative (`nan` is not). -/
def pfNonneg : PFloat → Bool
  | .val q => decide (0 ≤ q)
  | .inf => true
  | _ => false

/-- Truncation toward zero, as in Python `int(float)` / `astype(int)`. -/
def truncQ (q : ℚ) : Int :=
  Int.tdiv q.num (q.den : Int)

/-! ## Python float-string parsing

`float(s)` / `pd.to_numeric` accept an optionally signed decimal literal with
optional fractional part and exponent, and the special spellings
`inf` / `infinity` / `nan` (case-insensitive), with surrounding whitespace
stripped. -/

/-- Whitespace characters stripped by Python `float`. -/
def isSpc (c : Char) : Bool :=
  c == ' ' || c == '\t' || c == '\n' || c == '\r'

/-- Lower-case an ASCII character. -/
def lowerCh (c : Char) : Char :=
  if 'A' ≤ c && c ≤ 'Z' then Char.ofNat (c.toNat + 32) else c

/-- Split a character list on a separator (like Python `str.split`). -/
def splitOnCh (sep : Char) : List Char → List (List Char)
  | [] => [[]]
  | c :: rest =>
    let r := splitOnCh sep rest
    if c == sep then [] :: r
    else
      match r with
      | h :: t => (c :: h) :: t
      | [] => [[c]]

/-- Value of a decimal digit. -/
def digitVal? (c : Char) : Option Nat :=
  if '0' ≤ c && c ≤ '9' then some (c.toNat - 48) else none

/-- Value of a non-empty all-digit character list. -/
def digitsVal? (cs : List Char) : Option Nat :=
  match cs with
  | [] => none
  | _ =>
    cs.foldl
      (fun acc c =>
        match acc, digitVal? c with
        | some a, some d => some (a * 10 + d)
        | _, _ => none)
      (some 0)

/-- Value of the mantissa part `digits[.digits]` (either side of the dot may
be empty, but not both). -/
def mantissaVal? (cs : List Char) : Option ℚ :=
  match splitOnCh '.' cs with
  | [ip] => (digitsVal? ip).map (fun n => (n : ℚ))
  | [ip, fp] =>
    if ip.isEmpty && fp.isEmpty then none
    else
      match (if ip.isEmpty then some 0 else digitsVal? ip),
            (if fp.isEmpty then some 0 else digitsVal? fp) with
      | some i, some f => some ((i : ℚ) + (f : ℚ) / (10 : ℚ) ^ fp.length)
      | _, _ => none
  | _ => none

/-- Value of the exponent part: optional sign then digits. -/
def expVal? (cs : List Char) : Option Int :=
  match cs with
  | '+' :: rest => (digitsVal? rest).map (fun n => (n : Int))
  | '-' :: rest => (digitsVal? rest).map (fun n => -(n : Int))
  | rest => (digitsVal? rest).map (fun n => (n : Int))

/-- Ten to a signed power, as a rational. -/
def pow10 (e : Int) : ℚ :=
  if 0 ≤ e then (10 : ℚ) ^ e.toNat else 1 / (10 : ℚ) ^ (-e).toNat

def strInfChars : List Char := ['i', 'n', 'f']

def strInfinityChars : List Char := ['i', 'n', 'f', 'i', 'n', 'i', 't', 'y']

def strNanChars : List Char := ['n', 'a', 'n']

/-- Python `float(s)`, on the string contents (`none` means `ValueError`). -/
def pyFloatParse (s : String) : Option PFloat :=
  let cs := ((s.toList.dropWhile isSpc).reverse.dropWhile isSpc).reverse.map lowerCh
  let (neg, body) :=
    match cs with
    | '+' :: rest => (false, rest)
    | '-' :: rest => (true, rest)
    | rest => (false, rest)
  if body == strInfChars || body == strInfinityChars then
    some (if neg then .ninf else .inf)
  else if body == strNanChars then
    some .nan
  else
    match splitOnCh 'e' body with
    | [m] => (mantissaVal? m).map (fun q => .val (if neg then -q else q))
    | [m, ex] =>
      match mantissaVal? m, expVal? ex with
      | some q, some e => some (.val ((if neg then -q else q) * pow10 e))
      | _, _ => none
    | _ => none

/-! ## Field names and error messages -/

def kSpend : String := "spend"

def kImpressions : String := "impressions"

def kClicks : String := "clicks"

def kActions : String := "actions"

def kActionValues : String := "action_values"

def kCampaignName : String := "campaign_name"

def kActionType : String := "action_type"

def kValue : String := "value"

def kPurchase : String := "purchase"

def errColumn (k : String) : String := "KeyError column " ++ k

def errActionType : String := "KeyError action_type"

def errValueKey : String := "KeyError value"

def errNotMapping : String := "TypeError item is not a mapping"

def errValueParse : String := "ValueError could not convert string to float"

def errFloatArg : String := "TypeError float argument"

def errAstypeInt : String := "IntCastingNaNError"

def errUnhashable : String := "TypeError unhashable campaign_name"

/-! ## Per-cell coercions (src/app.py lines 79-91) -/

/-- Python `float(v)` on a decoded JSON value (raises on null/list/dict and
unparsable strings), as called in the extraction lambdas. -/
def pyFloat (v : Json) : Except String PFloat :=
  match v with
  | .num q => .ok (.val q)
  | .bool b => .ok (.val (if b then 1 else 0))
  | .str s =>
    match pyFloatParse s with
    | some pf => .ok pf
    | none => .error errValueParse
  | _ => .error errFloatArg

/-- Mirrors `pd.to_numeric(cell, errors='coerce')` on one cell: a missing
field is the NaN a `DataFrame` puts there, unparsable or non-numeric input
coerces to NaN. -/
def toNumeric (x : Option Json) : PFloat :=
  match x with
  | none => .nan
  | some (.num q) => .val q
  | some (.bool b) => .val (if b then 1 else 0)
  | some (.str s) => (pyFloatParse s).getD .nan
  | some _ => .nan

/-- Mirrors `.fillna(0)` on one cell. -/
def fillna0 (p : PFloat) : PFloat :=
  if p = .nan then .val 0 else p

/-- Mirrors `.astype(int)` on one cell: truncation toward zero; pandas raises
on non-finite values. -/
def astypeIntCell (p : PFloat) : Except String Int :=
  match p with
  | .val q => .ok (truncQ q)
  | _ => .error errAstypeInt

/-- The `spend` cell: `pd.to_numeric(df['spend'], errors='coerce').fillna(0)
.astype(float)` (line 79). -/
def spendOf (r : Record) : PFloat :=
  fillna0 (toNumeric (jlookup r kSpend))

/-- The `impressions` cell (line 80). -/
def imprOf (r : Record) : Except String Int :=
  astypeIntCell (fillna0 (toNumeric (jlookup r kImpressions)))

/-- The `clicks` cell (line 81). -/
def clicksOf (r : Record) : Except String Int :=
  astypeIntCell (fillna0 (toNumeric (jlookup r kClicks)))

/-- The generator scan inside the extraction lambdas (lines 85 and 89):
`next((float(item['value']) for item in x if item['action_type'] ==
'purchase'), 0)`.  Every scanned item is subscripted, so a non-mapping item
or one without an `action_type` key raises; once the first purchase item is
reached its `value` is fetched (raising if absent) and passed to `float`. -/
def scanPurchase : List Json → Except String PFloat
  | [] => .ok (.val 0)
  | item :: rest =>
    match item with
    | .obj kvs =>
      match jlookup kvs kActionType with
      | none => .error errActionType
      | some t =>
        if jsonIsStr t kPurchase then
          match jlookup kvs kValue with
          | none => .error errValueKey
          | some v => pyFloat v
        else scanPurchase rest
    | _ => .error errNotMapping

/-- The extraction lambda applied to one cell: a non-list cell (including the
NaN of a missing field) gives 0, a list is scanned. -/
def firstPurchasePF (x : Option Json) : Except String PFloat :=
  match x with
  | some (.arr items) => scanPurchase items
  | _ => .ok (.val 0)

/-- The `conversions` cell: extraction lambda then `.astype(int)`
(lines 84-87). -/
def convOf (r : Record) : Except String Int :=
  match firstPurchasePF (jlookup r kActions) with
  | .ok pf => astypeIntCell pf
  | .error e => .error e

/-- The `sales` cell: extraction lambda then `.astype(float)`
(lines 88-91). -/
def salesOf (r : Record) : Except String PFloat :=
  firstPurchasePF (jlookup r kActionValues)

/-! ## Row extraction -/

/-- One fully coerced record: the six derived columns of the `DataFrame`. -/
structure Row where
  key : Option Json
  spend : PFloat
  sales : PFloat
  impressions : Int
  clicks : Int
  conversions : Int

/-- Coerce one record into a `Row`, propagating the first raised error. -/
def rowOf (r : Record) : Except String Row :=
  match imprOf r with
  | .error e => .error e
  | .ok i =>
    match clicksOf r with
    | .error e => .error e
    | .ok c =>
      match convOf r with
      | .error e => .error e
      | .ok cv =>
        match salesOf r with
        | .error e => .error e
        | .ok s =>
          .ok { key := jlookup r kCampaignName, spend := spendOf r,
                sales := s, impressions := i, clicks := c, conversions := cv }

/-- First error in a list of cell results, else the list of values (the
column-wise error propagation of the pandas operations). -/
def colSequence {α : Type} : List (Except String α) → Except String (List α)
  | [] => .ok []
  | .error e :: _ => .error e
  | .ok a :: rest =>
    match colSequence rest with
    | .ok l => .ok (a :: l)
    | .error e => .error e

/-- A column is present in the `DataFrame` iff some record carries the key. -/
def colPresent (raw : List Record) (k : String) : Bool :=
  raw.any (fun r => (jlookup r k).isSome)

/-- The `campaign_name` value of a record is usable as a `groupby` key
(anything but an unhashable list/dict; a missing or null value is allowed
here and later dropped by `groupby`). -/
def keyHashable (r : Record) : Bool :=
  match jlookup r kCampaignName with
  | some (.arr _) => false
  | some (.obj _) => false
  | _ => true

/-- The fallible part of `process_data` on a non-empty input: the column
accesses of lines 79-91 (`KeyError` when a column is absent from every
record), the coercion of every record, and the `groupby` key access and
hashing of line 107. -/
def extractRows (raw : List Record) : Except String (List Row) :=
  if !colPresent raw kSpend then .error (errColumn kSpend)
  else if !colPresent raw kImpressions then .error (errColumn kImpressions)
  else if !colPresent raw kClicks then .error (errColumn kClicks)
  else if !colPresent raw kActions then .error (errColumn kActions)
  else if !colPresent raw kActionValues then .error (errColumn kActionValues)
  else if !colPresent raw kCampaignName then .error (errColumn kCampaignName)
  else if !(raw.all keyHashable) then .error errUnhashable
  else colSequence (raw.map rowOf)

/-! ## Grouping and derived metrics (src/app.py lines 94-141) -/

/-- A hashable, non-null `groupby` key. -/
inductive GKey where
  | bool (b : Bool)
  | num (q : ℚ)
  | str (s : String)
deriving DecidableEq, Repr

/-- The `groupby` key of a cell: missing and null values are dropped
(`groupby` default `dropna=True`); lists/dicts never reach this point. -/
def toGKey? (v : Json) : Option GKey :=
  match v with
  | .bool b => some (.bool b)
  | .num q => some (.num q)
  | .str s => some (.str s)
  | _ => none

/-- The group key of a coerced row, if it has one. -/
def rowKey? (row : Row) : Option GKey :=
  match row.key with
  | some v => toGKey? v
  | none => none

/-- Numeric value of a key when Python compares it as a number. -/
def gkeyNumVal? : GKey → Option ℚ
  | .num q => some q
  | .bool b => some (if b then 1 else 0)
  | .str _ => none

/-- Ordering used when `groupby(sort=True)` sorts the group keys: numeric
keys by value, then strings lexicographically (the mixed-type fallback of
pandas sorts numbers before strings). -/
def gkeyLEb (a b : GKey) : Bool :=
  match gkeyNumVal? a, gkeyNumVal? b with
  | some x, some y => decide (x ≤ y)
  | some _, none => true
  | none, some _ => false
  | none, none =>
    match a, b with
    | .str s, .str t => decide (s ≤ t)
    | _, _ => true

def gkeyLE (a b : GKey) : Prop := gkeyLEb a b = true

instance : DecidableRel gkeyLE := fun a b => instDecidableEqBool (gkeyLEb a b) true

/-- All distinct group keys of the rows, sorted ascending. -/
def sortedKeys (rows : List Row) : List GKey :=
  List.insertionSort gkeyLE (rows.filterMap rowKey?).dedup

/-- One line of the `campaign_summary` table. -/
structure CampaignRow where
  campaign_name : GKey
  spend : PFloat
  sales : PFloat
  impressions : Int
  clicks : Int
  conversions : Int
  roas : ℚ
  cpa : ℚ
  ctr : ℚ
  conversion_rate : ℚ
deriving DecidableEq, Repr

/-- Mirrors `campaign_summary['roas'] = (sales / spend).replace([inf, -inf],
0).fillna(0)` on one cell: the float division with every non-finite outcome
replaced by 0. -/
def pfSafeDiv (a b : PFloat) : ℚ :=
  match pfDiv a b with
  | .val q => q
  | _ => 0

/-- The rows belonging to group key `k`. -/
def groupRows (k : GKey) (rows : List Row) : List Row :=
  rows.filter (fun row => decide (rowKey? row = some k))

/-- The `campaign_summary` line for one group: the five summed columns of the
`groupby(...).agg(...)` of lines 107-113 and the four safe-division ratios of
lines 116-119. -/
def campaignRow (rows : List Row) (k : GKey) : CampaignRow :=
  let g := groupRows k rows
  let spend := pfSum (g.map (fun row => row.spend))
  let sales := pfSum (g.map (fun row => row.sales))
  let impressions : Int := (g.map (fun row => row.impressions)).sum
  let clicks : Int := (g.map (fun row => row.clicks)).sum
  let conversions : Int := (g.map (fun row => row.conversions)).sum
  { campaign_name := k
    spend := spend
    sales := sales
    impressions := impressions
    clicks := clicks
    conversions := conversions
    roas := pfSafeDiv sales spend
    cpa := pfSafeDiv spend (.val (conversions : ℚ))
    ctr := if impressions = 0 then 0 else ((clicks : ℚ) / (impressions : ℚ)) * 100
    conversion_rate :=
      if clicks = 0 then 0 else ((conversions : ℚ) / (clicks : ℚ)) * 100 }

/-- The bundle returned by `process_data` (lines 62-74 and 129-141). -/
structure MetricsResult where
  total_sales : PFloat
  total_ad_spend : PFloat
  overall_roas : PFloat
  overall_cpa : PFloat
  overall_ctr : ℚ
  overall_conversion_rate : ℚ
  total_impressions : Int
  total_clicks : Int
  campaign_summary : List CampaignRow
  high_roas_campaigns : List CampaignRow
  active_campaigns : List CampaignRow
deriving DecidableEq, Repr

/-- Descending-`roas` order used for `active_campaigns` (line 127). -/
def roasGE (a b : CampaignRow) : Prop := b.roas ≤ a.roas

instance : DecidableRel roasGE := fun a b =>
  inferInstanceAs (Decidable (b.roas ≤ a.roas))

/-- The all-zero result of the empty-input branch (lines 60-74). -/
def emptyResult : MetricsResult :=
  { total_sales := .val 0
    total_ad_spend := .val 0
    overall_roas := .val 0
    overall_cpa := .val 0
    overall_ctr := 0
    overall_conversion_rate := 0
    total_impressions := 0
    total_clicks := 0
    campaign_summary := []
    high_roas_campaigns := []
    active_campaigns := [] }

/-- The infallible tail of `process_data` on the coerced rows: overall totals
and KPIs (lines 94-104), the per-campaign table (107-119) and the two views
(122-127). -/
def computeMetrics (rows : List Row) : MetricsResult :=
  let total_ad_spend := pfSum (rows.map (fun row => row.spend))
  let total_sales := pfSum (rows.map (fun row => row.sales))
  let total_impressions : Int := (rows.map (fun row => row.impressions)).sum
  let total_clicks : Int := (rows.map (fun row => row.clicks)).sum
  let total_conversions : Int := (rows.map (fun row => row.conversions)).sum
  let summary := (sortedKeys rows).map (campaignRow rows)
  { total_sales := total_sales
    total_ad_spend := total_ad_spend
    overall_roas :=
      if pfGtZero total_ad_spend then pfDiv total_sales total_ad_spend
      else .val 0
    overall_cpa :=
      if 0 < total_conversions then
        pfDiv total_ad_spend (.val (total_conversions : ℚ))
      else .val 0
    overall_ctr :=
      if 0 < total_impressions then
        ((total_clicks : ℚ) / (total_impressions : ℚ)) * 100
      else 0
    overall_conversion_rate :=
      if 0 < total_clicks then
        ((total_conversions : ℚ) / (total_clicks : ℚ)) * 100
      else 0
    total_impressions := total_impressions
    total_clicks := total_clicks
    campaign_summary := summary
    high_roas_campaigns := summary.filter (fun c => decide (1 < c.roas))
    active_campaigns :=
      List.insertionSort roasGE
        (summary.filter
          (fun c =>
            decide (0 < c.impressions) || decide (0 < c.clicks) ||
              decide (0 < c.conversions))) }

/-- The aggregation core `process_data` (src/app.py lines 59-141): the empty
input short-circuits to the all-zero result, otherwise the records are
coerced (propagating any raised error) and aggregated. -/
def process_data (raw : List Record) : Except String MetricsResult :=
  if raw.isEmpty then .ok emptyResult
  else
    match extractRows raw with
    | .error e => .error e
    | .ok rows => .ok (computeMetrics rows)

/-! ## Spec-side extraction rule (for the refinement claim about
`conversions` and `sales`)

The following two definitions are written from the specification text, to be
compared with the extraction code: the value of the first entry in the list
whose `action_type` equals `purchase`, numerically parsed (truncated to an
integer for `conversions`, kept as a decimal for `sales`), and 0 when no such
entry exists, the field is absent or not a sequence, or the value does not
parse. -/

/-- An entry whose `action_type` equals `purchase`. -/
def isPurchaseEntry (item : Json) : Bool :=
  match item with
  | .obj kvs =>
    match jlookup kvs kActionType with
    | some t => jsonIsStr t kPurchase
    | none => false
  | _ => false

/-- Numeric parse of the `value` of an entry, degrading to 0. -/
def specParsedValue (item : Json) : PFloat :=
  match item with
  | .obj kvs =>
    match jlookup kvs kValue with
    | some v =>
      match pyFloat v with
      | .ok pf => pf
      | .error _ => .val 0
    | none => .val 0
  | _ => .val 0

/-- Parsed value of the result of the search for the first purchase entry
(0 when there is none). -/
def specOfFind (o : Option Json) : PFloat :=
  match o with
  | some item => specParsedValue item
  | none => .val 0

/-- Truncation of a finite parsed value to an integer. -/
def truncPF (pf : PFloat) : Int :=
  match pf with
  | .val q => truncQ q
  | _ => 0

/-- Spec rule for `sales` over `action_values`: decimal, not truncated. -/
def specSales (x : Option Json) : PFloat :=
  match x with
  | some (.arr items) => specOfFind (items.find? isPurchaseEntry)
  | _ => .val 0

/-- Spec rule for `conversions` over `actions`: truncated to an integer. -/
def specConversions (x : Option Json) : Int :=
  match x with
  | some (.arr items) => truncPF (specOfFind (items.find? isPurchaseEntry))
  | _ => 0

/-! ## Well-formedness: the conditions under which no step raises -/

/-- The prefix of entries the generator actually scans is raise-free: every
entry before the first purchase entry is a mapping with an `action_type`
key, and the first purchase entry (when one exists) is such a mapping whose
`value` exists and parses; with `finOnly` set the parsed value must also be
finite (the `conversions` column goes through `astype(int)`).  Entries after
the first purchase entry are never scanned by `next(...)`, so nothing is
required of them. -/
def entriesOKb (finOnly : Bool) : List Json → Bool
  | [] => true
  | item :: rest =>
    match item with
    | .obj kvs =>
      match jlookup kvs kActionType with
      | none => false
      | some t =>
        if jsonIsStr t kPurchase then
          match jlookup kvs kValue with
          | none => false
          | some v =>
            match pyFloat v with
            | .ok (.val _) => true
            | .ok _ => !finOnly
            | .error _ => false
        else entriesOKb finOnly rest
    | _ => false

/-- An `actions` / `action_values` cell that does not raise. -/
def cellListOKb (finOnly : Bool) (x : Option Json) : Bool :=
  match x with
  | some (.arr items) => entriesOKb finOnly items
  | _ => true

/-- An `impressions` / `clicks` cell that `astype(int)` accepts (everything
except an input parsing to an infinity). -/
def intCellOKb (x : Option Json) : Bool :=
  pfIsVal (fillna0 (toNumeric x))

/-- A record none of whose cells raises. -/
def recordOKb (r : Record) : Bool :=
  intCellOKb (jlookup r kImpressions) && intCellOKb (jlookup r kClicks) &&
    cellListOKb true (jlookup r kActions) &&
    cellListOKb false (jlookup r kActionValues) && keyHashable r

/-- Inputs on which `process_data` is total: empty, or with all six expected
columns present in at least one record and every record free of raising
cells. -/
def wellFormedb (raw : List Record) : Bool :=
  raw.isEmpty ||
    (colPresent raw kSpend && colPresent raw kImpressions &&
      colPresent raw kClicks && colPresent raw kActions &&
      colPresent raw kActionValues && colPresent raw kCampaignName &&
      raw.all recordOKb)

/-- The record has a string `campaign_name` (so `groupby` keeps it). -/
def keyIsStr (r : Record) : Bool :=
  match jlookup r kCampaignName with
  | some (.str _) => true
  | _ => false

/-- Cell-level non-negativity of a record after coercion (trivially true for
a cell that raises instead). -/
def exNonnegI (x : Except String Int) : Bool :=
  match x with
  | .ok n => decide (0 ≤ n)
  | .error _ => true

def exNonnegPF (x : Except String PFloat) : Bool :=
  match x with
  | .ok p => pfNonneg p
  | .error _ => true

/-- All five coerced numeric cells of a record are non-negative. -/
def cellsNonneg (r : Record) : Bool :=
  pfNonneg (spendOf r) && exNonnegI (imprOf r) && exNonnegI (clicksOf r) &&
    exNonnegI (convOf r) && exNonnegPF (salesOf r)

/-! ## Concrete inputs used in the theorems -/

def sX : String := "X"

def sA : String := "A"

def sFoo : String := "foo"

def sBar : String := "bar"

def s0 : String := "0"

def s1 : String := "1"

def s5 : String := "5"

def s50 : String := "50"

def s100 : String := "100"

def s500 : String := "500"

def s1000 : String := "1000"

def sNeg5 : String := "-5"

def sInfinity : String := "Infinity"

/-- Scenario B record: campaign `X` with one purchase action. -/
def recB : Record :=
  [(kCampaignName, Json.str sX), (kSpend, Json.str s100),
   (kImpressions, Json.str s1000), (kClicks, Json.str s50),
   (kActions,
     Json.arr [Json.obj [(kActionType, Json.str kPurchase),
                         (kValue, Json.str s5)]]),
   (kActionValues,
     Json.arr [Json.obj [(kActionType, Json.str kPurchase),
                         (kValue, Json.str s500)]])]

/-- A record whose first action entry has no `action_type` key. -/
def recNoActionType : Record :=
  [(kCampaignName, Json.str sA), (kSpend, Json.str s1),
   (kImpressions, Json.str s1), (kClicks, Json.str s1),
   (kActions, Json.arr [Json.obj [(sFoo, Json.str sBar)]]),
   (kActionValues, Json.arr [])]

/-- A record whose purchase `action_values` value parses to infinity. -/
def recInfSales : Record :=
  [(kCampaignName, Json.str sA), (kSpend, Json.str s100),
   (kImpressions, Json.str s1000), (kClicks, Json.str s50),
   (kActions, Json.arr []),
   (kActionValues,
     Json.arr [Json.obj [(kActionType, Json.str kPurchase),
                         (kValue, Json.str sInfinity)]])]

/-- A plain record for campaign `A`. -/
def recA1 : Record :=
  [(kCampaignName, Json.str sA), (kSpend, Json.str s1),
   (kImpressions, Json.str s1), (kClicks, Json.str s1),
   (kActions, Json.arr []), (kActionValues, Json.arr [])]

/-- A record carrying spend 5 but no `campaign_name` at all. -/
def recNoName : Record :=
  [(kSpend, Json.str s5), (kImpressions, Json.str s1),
   (kClicks, Json.str s1), (kActions, Json.arr []),
   (kActionValues, Json.arr [])]

/-- A record with a negative raw spend. -/
def recNegSpend : Record :=
  [(kCampaignName, Json.str sA), (kSpend, Json.str sNeg5),
   (kImpressions, Json.str s0), (kClicks, Json.str s0),
   (kActions, Json.arr []), (kActionValues, Json.arr [])]

/-- A record whose denominators are all zero. -/
def recZero : Record :=
  [(kCampaignName, Json.str sA), (kSpend, Json.str s0),
   (kImpressions, Json.str s0), (kClicks, Json.str s0),
   (kActions, Json.arr []), (kActionValues, Json.arr [])]

/-! ## Computation lemmas for `PFloat` -/

theorem val_ne_nan (q : ℚ) : PFloat.val q ≠ PFloat.nan := fun h =>
  PFloat.noConfusion h

theorem inf_ne_nan : PFloat.inf ≠ PFloat.nan := fun h => PFloat.noConfusion h

theorem fillna0_val (q : ℚ) : fillna0 (.val q) = .val q := rfl

theorem fillna0_inf : fillna0 .inf = .inf := rfl

theorem fillna0_nan : fillna0 .nan = .val 0 := rfl

theorem pfAdd_val_val (a b : ℚ) : pfAdd (.val a) (.val b) = .val (a + b) := rfl

theorem pfAdd_inf_val (b : ℚ) : pfAdd .inf (.val b) = .inf := rfl

theorem pfSum_nil : pfSum [] = .val 0 := rfl

theorem pfSum_cons_val (q : ℚ) (l : List PFloat) :
    pfSum (.val q :: l) = pfAdd (.val q) (pfSum l) := rfl

theorem pfSum_cons_inf (l : List PFloat) :
    pfSum (.inf :: l) = pfAdd .inf (pfSum l) := rfl

theorem pfGtZero_val (q : ℚ) : pfGtZero (.val q) = decide (0 < q) := rfl

theorem pfGtZero_inf : pfGtZero .inf = true := rfl

theorem pfDiv_val_val (a b : ℚ) (hb : b ≠ 0) :
    pfDiv (.val a) (.val b) = .val (a / b) := by
  simp [pfDiv, hb]

theorem pfDiv_inf_val (b : ℚ) (hb : ¬ b < 0) : pfDiv .inf (.val b) = .inf := by
  simp [pfDiv, hb]

theorem pfSafeDiv_val_val (a b : ℚ) (hb : b ≠ 0) :
    pfSafeDiv (.val a) (.val b) = a / b := by
  simp [pfSafeDiv, pfDiv_val_val a b hb]

theorem pfSafeDiv_zero_den (a : PFloat) : pfSafeDiv a (.val 0) = 0 := by
  cases a <;> first
  | rfl
  | (simp only [pfSafeDiv, pfDiv]; split_ifs <;> rfl)

theorem pfSafeDiv_inf_left (b : PFloat) : pfSafeDiv .inf b = 0 := by
  cases b <;> first
  | rfl
  | (simp only [pfSafeDiv, pfDiv]; split_ifs <;> rfl)

theorem dedup_single {α : Type} [DecidableEq α] (a : α) :
    List.dedup [a] = [a] := by
  simp

/-! ## Closed results -/

/-- The `campaign_summary` line produced for Scenario B. -/
def rowX : CampaignRow :=
  { campaign_name := .str sX
    spend := .val 100
    sales := .val 500
    impressions := 1000
    clicks := 50
    conversions := 5
    roas := 5
    cpa := 20
    ctr := 5
    conversion_rate := 10 }

/-- C4: on the empty input, `process_data` returns the result whose eight
overall totals and ratios are all 0 and whose per-campaign table and both
views are empty. -/
theorem c4_empty_input :
    process_data [] =
      Except.ok
        { total_sales := .val 0
          total_ad_spend := .val 0
          overall_roas := .val 0
          overall_cpa := .val 0
          overall_ctr := 0
          overall_conversion_rate := 0
          total_impressions := 0
          total_clicks := 0
          campaign_summary := []
          high_roas_campaigns := []
          active_campaigns := [] } := rfl

/-- The coerced row of the Scenario B record. -/
def rowRecB : Row :=
  { key := some (.str sX), spend := .val 100, sales := .val 500,
    impressions := 1000, clicks := 50, conversions := 5 }

/-- C8: on the single Scenario B record, campaign `X` has spend 100,
sales 500, conversions 5, roas 5, cpa 20, ctr 5, conversion rate 10; the
overall totals match; and `X` is the sole line of both the high-roas and the
active view. -/
theorem c8_scenario_b :
    process_data [recB] =
      Except.ok
        { total_sales := .val 500
          total_ad_spend := .val 100
          overall_roas := .val 5
          overall_cpa := .val 20
          overall_ctr := 5
          overall_conversion_rate := 10
          total_impressions := 1000
          total_clicks := 50
          campaign_summary := [rowX]
          high_roas_campaigns := [rowX]
          active_campaigns := [rowX] } := by
  have hs : process_data [recB] = Except.ok (computeMetrics [rowRecB]) := rfl
  rw [hs]
  norm_num [computeMetrics, sortedKeys, campaignRow, groupRows, rowKey?,
    toGKey?, dedup_single, pfSum_cons_val, pfSum_nil, pfAdd_val_val,
    pfGtZero_val, pfDiv_val_val, pfSafeDiv_val_val, List.insertionSort,
    List.orderedInsert, roasGE, rowRecB, rowX]

/-- C1 counterexample: on a record whose first `actions` entry lacks the
`action_type` key, `process_data` raises instead of degrading the field to
0, refuting the claim that it never raises on malformed entries. -/
theorem c1_raises_cex :
    process_data [recNoActionType] = Except.error errActionType := rfl

/-- The coerced row of the infinite-sales record. -/
def rowInfSales : Row :=
  { key := some (.str sA), spend := .val 100, sales := .inf,
    impressions := 1000, clicks := 50, conversions := 0 }

/-- C2 counterexample: a purchase value of `Infinity` in `action_values`
makes the returned `overall_roas` the float infinity, refuting the claim
that no output ratio is ever infinity. -/
theorem c2_inf_ratio_cex :
    (process_data [recInfSales]).map (fun m => m.overall_roas) =
        Except.ok PFloat.inf ∧
      pfIsVal PFloat.inf = false := by
  have hs : process_data [recInfSales] =
      Except.ok (computeMetrics [rowInfSales]) := rfl
  rw [hs]
  refine ⟨?_, rfl⟩
  norm_num [Except.map, computeMetrics, pfSum_cons_inf, pfSum_cons_val,
    pfSum_nil, pfAdd_inf_val, pfAdd_val_val, pfGtZero_val, pfDiv_inf_val,
    rowInfSales]

/-- The coerced rows of the two C5 counterexample records. -/
def rowA1 : Row :=
  { key := some (.str sA), spend := .val 1, sales := .val 0,
    impressions := 1, clicks := 1, conversions := 0 }

def rowNoName : Row :=
  { key := none, spend := .val 5, sales := .val 0,
    impressions := 1, clicks := 1, conversions := 0 }

/-- C5 counterexample: with one record lacking `campaign_name`, the summed
per-campaign spend is 1 while `total_ad_spend` is 6 (the nameless record is
dropped by `groupby` but still counted in the raw total). -/
theorem c5_sum_mismatch_cex :
    (process_data [recA1, recNoName]).map
        (fun m =>
          (pfSum (m.campaign_summary.map (fun c => c.spend)),
            m.total_ad_spend)) =
        Except.ok (PFloat.val 1, PFloat.val 6) ∧
      PFloat.val 1 ≠ PFloat.val 6 := by
  refine ⟨?_, by decide⟩
  have hs : process_data [recA1, recNoName] =
      Except.ok (computeMetrics [rowA1, rowNoName]) := rfl
  rw [hs]
  have hne : ((none : Option GKey) = some (GKey.str sA)) = False := by simp
  norm_num [hne, Except.map, computeMetrics, sortedKeys, campaignRow, groupRows,
    rowKey?, toGKey?, dedup_single, pfSum_cons_val, pfSum_nil, pfAdd_val_val,
    pfGtZero_val, pfDiv_val_val, pfSafeDiv_val_val, List.insertionSort,
    List.orderedInsert, List.filter_cons, List.filter_nil, List.map_cons,
    List.map_nil, List.filterMap_cons, List.filterMap_nil, roasGE, rowA1,
    rowNoName]

/-- C7 counterexample: a raw spend of `-5` coerces to the negative value
`-5`, refuting the claim that every coerced numeric field is
non-negative. -/
theorem c7_negative_cex :
    (extractRows [recNegSpend]).map
        (fun rows => rows.all (fun row => pfNonneg row.spend)) =
      Except.ok false := rfl

/-! ## C3: the extraction lambdas implement the spec rule -/

/-- Whenever the scan returns without raising, its value is the parsed
`value` of the first purchase entry (or 0 when there is none). -/
theorem scanPurchase_eq_spec (items : List Json) (pf : PFloat)
    (h : scanPurchase items = .ok pf) :
    pf = specOfFind (items.find? isPurchaseEntry) := by
  induction items with
  | nil =>
    simp only [scanPurchase] at h
    cases h
    rfl
  | cons item rest ih =>
    cases item with
    | obj kvs =>
      simp only [scanPurchase] at h
      cases hat : jlookup kvs kActionType with
      | none =>
        simp only [hat] at h
        exact Except.noConfusion h
      | some t =>
        simp only [hat] at h
        by_cases hp : jsonIsStr t kPurchase = true
        · simp only [hp, if_true] at h
          have hip : isPurchaseEntry (Json.obj kvs) = true := by
            simp [isPurchaseEntry, hat, hp]
          rw [List.find?_cons_of_pos _ hip]
          cases hv : jlookup kvs kValue with
          | none =>
            simp only [hv] at h
            exact Except.noConfusion h
          | some v =>
            simp only [hv] at h
            simp [specOfFind, specParsedValue, hv, h]
        · simp only [hp, if_false, Bool.false_eq_true] at h
          have hnp : isPurchaseEntry (Json.obj kvs) = false := by
            simp only [isPurchaseEntry, hat]
            simpa using hp
          rw [List.find?_cons_of_neg _ (by simp [hnp])]
          exact ih h
    | null => exact Except.noConfusion h
    | bool b => exact Except.noConfusion h
    | num q => exact Except.noConfusion h
    | str s => exact Except.noConfusion h
    | arr xs => exact Except.noConfusion h

/-- C3: whenever the `conversions` cell of a record is produced without
raising, it equals the spec rule (truncated numeric parse of the value of
the first purchase entry of `actions`, 0 when absent or not a sequence); and
the same for `sales` over `action_values`, as a decimal without
truncation. -/
theorem c3_first_purchase_rule (r : Record) (n : Int) (pf : PFloat) :
    (convOf r = .ok n → n = specConversions (jlookup r kActions)) ∧
      (salesOf r = .ok pf → pf = specSales (jlookup r kActionValues)) := by
  constructor
  · intro h
    unfold convOf at h
    cases hx : jlookup r kActions with
    | none =>
      simp only [hx, firstPurchasePF, astypeIntCell] at h
      cases h
      simp [specConversions, truncQ]
    | some v =>
      simp only [hx] at h
      cases v with
      | arr items =>
        simp only [firstPurchasePF] at h
        cases hscan : scanPurchase items with
        | error e =>
          simp only [hscan] at h
          exact Except.noConfusion h
        | ok pfs =>
          simp only [hscan] at h
          have hspec := scanPurchase_eq_spec items pfs hscan
          cases pfs with
          | val q =>
            simp only [astypeIntCell] at h
            cases h
            simp only [specConversions, ← hspec, truncPF]
          | nan => exact Except.noConfusion h
          | inf => exact Except.noConfusion h
          | ninf => exact Except.noConfusion h
      | null =>
        simp only [firstPurchasePF, astypeIntCell] at h
        cases h
        simp [specConversions, truncQ]
      | bool b =>
        simp only [firstPurchasePF, astypeIntCell] at h
        cases h
        simp [specConversions, truncQ]
      | num q =>
        simp only [firstPurchasePF, astypeIntCell] at h
        cases h
        simp [specConversions, truncQ]
      | str s =>
        simp only [firstPurchasePF, astypeIntCell] at h
        cases h
        simp [specConversions, truncQ]
      | obj kvs =>
        simp only [firstPurchasePF, astypeIntCell] at h
        cases h
        simp [specConversions, truncQ]
  · intro h
    unfold salesOf at h
    cases hx : jlookup r kActionValues with
    | none =>
      simp only [hx, firstPurchasePF] at h
      cases h
      simp [specSales]
    | some v =>
      simp only [hx] at h
      cases v with
      | arr items =>
        simp only [firstPurchasePF] at h
        have hspec := scanPurchase_eq_spec items pf h
        simp [specSales, hspec]
      | null => simp only [firstPurchasePF] at h; cases h; simp [specSales]
      | bool b => simp only [firstPurchasePF] at h; cases h; simp [specSales]
      | num q => simp only [firstPurchasePF] at h; cases h; simp [specSales]
      | str s => simp only [firstPurchasePF] at h; cases h; simp [specSales]
      | obj kvs => simp only [firstPurchasePF] at h; cases h; simp [specSales]

/-- Witness for the extraction rule at the Scenario B record. -/
theorem c3_first_purchase_rule_witness :
    (5 : Int) = specConversions (jlookup recB kActions) ∧
      PFloat.val 500 = specSales (jlookup recB kActionValues) :=
  ⟨(c3_first_purchase_rule recB 5 (.val 500)).1 rfl,
    (c3_first_purchase_rule recB 5 (.val 500)).2 rfl⟩

/-! ## C2: safe-division semantics -/

theorem pfGtZero_val_zero : pfGtZero (.val 0) = false := rfl

/-- The four safe-division clauses for one campaign line. -/
theorem campaignRow_safe_division (rows : List Row) (k : GKey) :
    ((campaignRow rows k).spend = .val 0 → (campaignRow rows k).roas = 0) ∧
      ((campaignRow rows k).conversions = 0 → (campaignRow rows k).cpa = 0) ∧
      ((campaignRow rows k).impressions = 0 → (campaignRow rows k).ctr = 0) ∧
      ((campaignRow rows k).clicks = 0 →
        (campaignRow rows k).conversion_rate = 0) := by
  refine ⟨?_, ?_, ?_, ?_⟩
  · intro h
    simp only [campaignRow] at h ⊢
    rw [h]
    exact pfSafeDiv_zero_den _
  · intro h
    simp only [campaignRow] at h ⊢
    rw [h]
    norm_num
    exact pfSafeDiv_zero_den _
  · intro h
    simp only [campaignRow] at h ⊢
    rw [if_pos h]
  · intro h
    simp only [campaignRow] at h ⊢
    rw [if_pos h]

/-- C2 amended: whenever `process_data` returns, every per-campaign ratio is
0 when its denominator is 0 (and is a finite rational by construction); each
overall ratio is 0 when its denominator is 0; `overall_ctr` and
`overall_conversion_rate` are finite rationals by construction; and
`overall_roas` / `overall_cpa` are finite whenever the totals they divide
are finite. -/
theorem c2_safe_division (raw : List Record) (m : MetricsResult)
    (h : process_data raw = .ok m) :
    (∀ c ∈ m.campaign_summary,
        (c.spend = .val 0 → c.roas = 0) ∧
          (c.conversions = 0 → c.cpa = 0) ∧
            (c.impressions = 0 → c.ctr = 0) ∧
              (c.clicks = 0 → c.conversion_rate = 0)) ∧
      (m.total_ad_spend = .val 0 → m.overall_roas = .val 0) ∧
        (m.total_impressions = 0 → m.overall_ctr = 0) ∧
          (m.total_clicks = 0 → m.overall_conversion_rate = 0) ∧
            (∀ rows, extractRows raw = .ok rows →
              (rows.map (fun row => row.conversions)).sum = 0 →
                m.overall_cpa = .val 0) ∧
              (pfIsVal m.total_sales = true → pfIsVal m.total_ad_spend = true →
                pfIsVal m.overall_roas = true) ∧
                (pfIsVal m.total_ad_spend = true →
                  pfIsVal m.overall_cpa = true) := by
  unfold process_data at h
  by_cases hraw : raw.isEmpty
  · rw [if_pos hraw] at h
    cases h
    refine ⟨?_, ?_, ?_, ?_, ?_, ?_, ?_⟩
    · intro c hc
      simp [emptyResult] at hc
    · intro _; rfl
    · intro _; rfl
    · intro _; rfl
    · intro rows hrows
      rw [List.isEmpty_iff.mp hraw] at hrows
      simp [extractRows, colPresent] at hrows
    · intro _ _; rfl
    · intro _; rfl
  · rw [if_neg hraw] at h
    cases hex : extractRows raw with
    | error e => rw [hex] at h; exact Except.noConfusion h
    | ok rows =>
      rw [hex] at h
      cases h
      refine ⟨?_, ?_, ?_, ?_, ?_, ?_, ?_⟩
      · intro c hc
        simp only [computeMetrics, List.mem_map] at hc
        obtain ⟨k, _, hk⟩ := hc
        rw [← hk]
        exact campaignRow_safe_division rows k
      · intro h0
        simp only [computeMetrics] at h0 ⊢
        rw [h0, pfGtZero_val_zero]
        rfl
      · intro h0
        simp only [computeMetrics] at h0 ⊢
        rw [h0]
        rfl
      · intro h0
        simp only [computeMetrics] at h0 ⊢
        rw [h0]
        rfl
      · intro rows' hrows' hsum
        cases hrows'
        simp only [computeMetrics]
        rw [hsum]
        rfl
      · intro hs ha
        simp only [computeMetrics] at hs ha ⊢
        by_cases hgt : pfGtZero (pfSum (rows.map (fun row => row.spend))) = true
        · rw [if_pos hgt]
          cases hsv : pfSum (rows.map (fun row => row.sales)) with
          | val a =>
            cases hav : pfSum (rows.map (fun row => row.spend)) with
            | val b =>
              rw [hav, pfGtZero_val] at hgt
              have hb : b ≠ 0 := by
                intro hb0
                rw [hb0] at hgt
                simp at hgt
              rw [pfDiv_val_val a b hb]
              rfl
            | nan => rw [hav] at ha; exact Bool.noConfusion ha
            | inf => rw [hav] at ha; exact Bool.noConfusion ha
            | ninf => rw [hav] at ha; exact Bool.noConfusion ha
          | nan => rw [hsv] at hs; exact Bool.noConfusion hs
          | inf => rw [hsv] at hs; exact Bool.noConfusion hs
          | ninf => rw [hsv] at hs; exact Bool.noConfusion hs
        · rw [if_neg hgt]
          rfl
      · intro ha
        simp only [computeMetrics] at ha ⊢
        by_cases hgt : 0 < (rows.map (fun row => row.conversions)).sum
        · rw [if_pos hgt]
          cases hav : pfSum (rows.map (fun row => row.spend)) with
          | val b =>
            have hcq :
                (((rows.map (fun row => row.conversions)).sum : ℤ) : ℚ) ≠ 0 := by
              exact_mod_cast ne_of_gt hgt
            rw [pfDiv_val_val _ _ hcq]
            rfl
          | nan => rw [hav] at ha; exact Bool.noConfusion ha
          | inf => rw [hav] at ha; exact Bool.noConfusion ha
          | ninf => rw [hav] at ha; exact Bool.noConfusion ha
        · rw [if_neg hgt]
          rfl

/-- Witness for the safe-division theorem at a record whose spend,
impressions and clicks are all zero. -/
def rowZero : Row :=
  { key := some (.str sA), spend := .val 0, sales := .val 0,
    impressions := 0, clicks := 0, conversions := 0 }

theorem c2_safe_division_witness :
    (match process_data [recZero] with
      | .ok m => m.overall_roas = .val 0 ∧ m.overall_ctr = 0
      | .error _ => False) := by
  have h : process_data [recZero] =
      Except.ok (computeMetrics [rowZero]) := rfl
  rw [h]
  have hc := c2_safe_division [recZero] _ h
  have hta : (computeMetrics [rowZero]).total_ad_spend = .val 0 := by
    norm_num [computeMetrics, pfSum_cons_val, pfSum_nil, pfAdd_val_val,
      rowZero]
  have hti : (computeMetrics [rowZero]).total_impressions = 0 := rfl
  exact ⟨hc.2.1 hta, hc.2.2.1 hti⟩

/-! ## C6: the two report views -/

instance : IsTotal CampaignRow roasGE :=
  ⟨fun a b => (le_total b.roas a.roas).imp id id⟩

instance : IsTrans CampaignRow roasGE :=
  ⟨fun _ _ _ hab hbc => le_trans hbc hab⟩

/-- C6: whenever `process_data` returns, the high-roas view is exactly the
filter of the campaign table by `roas > 1`; every line of the active view
satisfies the impressions/clicks/conversions OR-predicate; the active view
contains every line of the table satisfying it; and the active view is
sorted non-increasing by `roas`. -/
theorem c6_views (raw : List Record) (m : MetricsResult)
    (h : process_data raw = .ok m) :
    m.high_roas_campaigns =
        m.campaign_summary.filter (fun c => decide (1 < c.roas)) ∧
      (∀ c ∈ m.active_campaigns,
          0 < c.impressions ∨ 0 < c.clicks ∨ 0 < c.conversions) ∧
        (∀ c ∈ m.campaign_summary,
            (0 < c.impressions ∨ 0 < c.clicks ∨ 0 < c.conversions) →
              c ∈ m.active_campaigns) ∧
          List.Sorted roasGE m.active_campaigns := by
  unfold process_data at h
  by_cases hraw : raw.isEmpty
  · rw [if_pos hraw] at h
    cases h
    refine ⟨rfl, ?_, ?_, List.sorted_nil⟩
    · intro c hc
      simp [emptyResult] at hc
    · intro c hc
      simp [emptyResult] at hc
  · rw [if_neg hraw] at h
    cases hex : extractRows raw with
    | error e => rw [hex] at h; exact Except.noConfusion h
    | ok rows =>
      rw [hex] at h
      cases h
      refine ⟨rfl, ?_, ?_, ?_⟩
      · intro c hc
        simp only [computeMetrics, List.mem_insertionSort,
          List.mem_filter] at hc
        have := hc.2
        simpa [decide_eq_true_eq, Bool.or_eq_true, or_assoc] using this
      · intro c hc hpred
        simp only [computeMetrics] at hc ⊢
        rw [List.mem_insertionSort, List.mem_filter]
        refine ⟨hc, ?_⟩
        simpa [decide_eq_true_eq, Bool.or_eq_true, or_assoc] using hpred
      · simp only [computeMetrics]
        exact List.sorted_insertionSort roasGE _

/-- Witness for the views theorem: the active view of Scenario B is sorted
non-increasing by `roas`. -/
theorem c6_views_witness :
    List.Sorted roasGE (computeMetrics [rowRecB]).active_campaigns :=
  (c6_views [recB] (computeMetrics [rowRecB]) rfl).2.2.2

/-! ## C5: aggregation consistency -/

/-- Rational payload of a finite float (0 otherwise). -/
def pfToQ : PFloat → ℚ
  | .val q => q
  | _ => 0

/-- Every element produced by a successful column sequencing appears as a
successful cell of the column. -/
theorem colSequence_mem {α : Type} :
    ∀ (l : List (Except String α)) (out : List α),
      colSequence l = .ok out → ∀ x ∈ out, (Except.ok x : Except String α) ∈ l := by
  intro l
  induction l with
  | nil =>
    intro out h x hx
    cases h
    cases hx
  | cons e rest ih =>
    intro out h x hx
    cases e with
    | error msg => exact Except.noConfusion h
    | ok a =>
      simp only [colSequence] at h
      cases hrest : colSequence rest with
      | error msg => rw [hrest] at h; exact Except.noConfusion h
      | ok tl =>
        rw [hrest] at h
        cases h
        rcases List.mem_cons.mp hx with hxa | hxtl
        · rw [hxa]
          exact List.mem_cons_self _ _
        · exact List.mem_cons_of_mem _ (ih tl hrest x hxtl)

/-- A successfully coerced row carries exactly the per-cell coercions of its
record. -/
theorem rowOf_ok_fields (r : Record) (row : Row) (h : rowOf r = .ok row) :
    row.key = jlookup r kCampaignName ∧ row.spend = spendOf r ∧
      salesOf r = .ok row.sales ∧ imprOf r = .ok row.impressions ∧
        clicksOf r = .ok row.clicks ∧ convOf r = .ok row.conversions := by
  unfold rowOf at h
  cases hi : imprOf r with
  | error e => rw [hi] at h; exact Except.noConfusion h
  | ok i =>
    rw [hi] at h
    cases hc : clicksOf r with
    | error e => rw [hc] at h; exact Except.noConfusion h
    | ok c =>
      rw [hc] at h
      cases hv : convOf r with
      | error e => rw [hv] at h; exact Except.noConfusion h
      | ok cv =>
        rw [hv] at h
        cases hs : salesOf r with
        | error e => rw [hs] at h; exact Except.noConfusion h
        | ok s =>
          rw [hs] at h
          cases h
          exact ⟨rfl, rfl, rfl, rfl, rfl, rfl⟩

/-- Every row of a successful extraction comes from a record of the input. -/
theorem extractRows_mem (raw : List Record) (rows : List Row)
    (h : extractRows raw = .ok rows) :
    ∀ row ∈ rows, ∃ r ∈ raw, rowOf r = .ok row := by
  intro row hrow
  unfold extractRows at h
  by_cases h1 : !colPresent raw kSpend
  · rw [if_pos h1] at h; exact Except.noConfusion h
  · rw [if_neg h1] at h
    by_cases h2 : !colPresent raw kImpressions
    · rw [if_pos h2] at h; exact Except.noConfusion h
    · rw [if_neg h2] at h
      by_cases h3 : !colPresent raw kClicks
      · rw [if_pos h3] at h; exact Except.noConfusion h
      · rw [if_neg h3] at h
        by_cases h4 : !colPresent raw kActions
        · rw [if_pos h4] at h; exact Except.noConfusion h
        · rw [if_neg h4] at h
          by_cases h5 : !colPresent raw kActionValues
          · rw [if_pos h5] at h; exact Except.noConfusion h
          · rw [if_neg h5] at h
            by_cases h6 : !colPresent raw kCampaignName
            · rw [if_pos h6] at h; exact Except.noConfusion h
            · rw [if_neg h6] at h
              by_cases h7 : !(raw.all keyHashable)
              · rw [if_pos h7] at h; exact Except.noConfusion h
              · rw [if_neg h7] at h
                have := colSequence_mem _ _ h row hrow
                rcases List.mem_map.mp this with ⟨r, hr, hrow'⟩
                exact ⟨r, hr, hrow'⟩

/-- A sum over finite floats is the finite sum of the payloads. -/
theorem pfSum_allVal (l : List PFloat) (h : ∀ p ∈ l, pfIsVal p = true) :
    pfSum l = .val ((l.map pfToQ).sum) := by
  induction l with
  | nil => simp [pfSum_nil]
  | cons p t ih =>
    have hp := h p (List.mem_cons_self _ _)
    have ht : ∀ x ∈ t, pfIsVal x = true := fun x hx =>
      h x (List.mem_cons_of_mem _ hx)
    cases p with
    | val q =>
      rw [pfSum_cons_val, ih ht, pfAdd_val_val]
      simp [pfToQ]
    | nan => exact Bool.noConfusion hp
    | inf => exact Bool.noConfusion hp
    | ninf => exact Bool.noConfusion hp

/-- Splitting a sum over a list along a Boolean predicate. -/
theorem sum_filter_split {α : Type} (p : α → Bool) (f : α → ℚ) (l : List α) :
    ((l.filter p).map f).sum + ((l.filter (fun a => !(p a))).map f).sum =
      (l.map f).sum := by
  induction l with
  | nil => simp
  | cons a t ih =>
    by_cases hpa : p a = true
    · simp only [List.filter_cons, hpa, Bool.not_true, Bool.false_eq_true,
        if_true, if_false, List.map_cons, List.sum_cons]
      rw [add_assoc, ih]
    · have hpa' : p a = false := by simpa using hpa
      simp only [List.filter_cons, hpa', Bool.not_false, Bool.false_eq_true,
        if_true, if_false, List.map_cons, List.sum_cons]
      rw [add_left_comm, ih]

/-- Summing group-by-group over a duplicate-free key list that covers every
row gives the sum over all rows. -/
theorem sum_groups_eq (f : Row → ℚ) :
    ∀ (ks : List GKey) (rows : List Row), ks.Nodup →
      (∀ row ∈ rows, ∃ k ∈ ks, rowKey? row = some k) →
      (ks.map (fun k => ((groupRows k rows).map f).sum)).sum =
        (rows.map f).sum := by
  intro ks
  induction ks with
  | nil =>
    intro rows _ hcov
    have hrows : rows = [] := by
      apply List.eq_nil_iff_forall_not_mem.mpr
      intro row hrow
      obtain ⟨k, hk, _⟩ := hcov row hrow
      exact absurd hk (List.not_mem_nil k)
    rw [hrows]
    simp
  | cons k ks' ih =>
    intro rows hnd hcov
    have hndk : k ∉ ks' := (List.nodup_cons.mp hnd).1
    have hnd' : ks'.Nodup := (List.nodup_cons.mp hnd).2
    have hgr : ∀ k' ∈ ks',
        groupRows k' (rows.filter
          (fun row => !(decide (rowKey? row = some k)))) =
          groupRows k' rows := by
      intro k' hk'
      have hne : k' ≠ k := fun hEq => hndk (hEq ▸ hk')
      unfold groupRows
      rw [List.filter_filter]
      apply List.filter_congr
      intro row _
      by_cases hrk : rowKey? row = some k'
      · simp [hrk, hne]
      · simp [hrk]
    have hcov' : ∀ row ∈ rows.filter
        (fun row => !(decide (rowKey? row = some k))),
        ∃ k' ∈ ks', rowKey? row = some k' := by
      intro row hrow
      have hmem := List.mem_filter.mp hrow
      obtain ⟨k2, hk2, hkey⟩ := hcov row hmem.1
      rcases List.mem_cons.mp hk2 with h1 | h2
      · exfalso
        have hflt := hmem.2
        rw [hkey, h1] at hflt
        simp at hflt
      · exact ⟨k2, h2, hkey⟩
    simp only [List.map_cons, List.sum_cons]
    have hch : (ks'.map
          (fun k' => ((groupRows k' rows).map f).sum)).sum =
        ((rows.filter
          (fun row => !(decide (rowKey? row = some k)))).map f).sum := by
      rw [← ih (rows.filter (fun row => !(decide (rowKey? row = some k))))
        hnd' hcov']
      apply congrArg
      apply List.map_congr_left
      intro k' hk'
      rw [hgr k' hk']
    rw [hch]
    exact sum_filter_split (fun row => decide (rowKey? row = some k)) f rows

/-- C5 amended: the summed per-campaign spend equals `total_ad_spend`
provided every record carries a string `campaign_name` (so no row is dropped
by `groupby`) and every coerced spend is finite (so no `nan` group sum is
skipped). -/
theorem c5_aggregation_consistency (raw : List Record) (m : MetricsResult)
    (hgood : ∀ r ∈ raw, keyIsStr r = true ∧ pfIsVal (spendOf r) = true)
    (h : process_data raw = .ok m) :
    pfSum (m.campaign_summary.map (fun c => c.spend)) = m.total_ad_spend := by
  unfold process_data at h
  by_cases hraw : raw.isEmpty
  · rw [if_pos hraw] at h
    cases h
    rfl
  · rw [if_neg hraw] at h
    cases hex : extractRows raw with
    | error e => rw [hex] at h; exact Except.noConfusion h
    | ok rows =>
      rw [hex] at h
      cases h
      have hrowfacts : ∀ row ∈ rows,
          (∃ s, rowKey? row = some (.str s)) ∧ pfIsVal row.spend = true := by
        intro row hrow
        obtain ⟨r, hr, hro⟩ := extractRows_mem raw rows hex row hrow
        obtain ⟨hkey, hspend, -⟩ := rowOf_ok_fields r row hro
        have hg := hgood r hr
        constructor
        · have hk := hg.1
          unfold keyIsStr at hk
          cases hjk : jlookup r kCampaignName with
          | none => rw [hjk] at hk; exact Bool.noConfusion hk
          | some v =>
            rw [hjk] at hk
            cases v with
            | str s =>
              exact ⟨s, by simp [rowKey?, hkey, hjk, toGKey?]⟩
            | null => exact Bool.noConfusion hk
            | bool b => exact Bool.noConfusion hk
            | num q => exact Bool.noConfusion hk
            | arr xs => exact Bool.noConfusion hk
            | obj kvs => exact Bool.noConfusion hk
        · rw [hspend]
          exact hg.2
      simp only [computeMetrics]
      have hgroup_val : ∀ k : GKey,
          pfSum ((groupRows k rows).map (fun row => row.spend)) =
            .val (((groupRows k rows).map (fun row => pfToQ row.spend)).sum) := by
        intro k
        rw [pfSum_allVal _ (by
          intro p hp
          obtain ⟨row, hrowg, hpe⟩ := List.mem_map.mp hp
          have hrm := List.mem_filter.mp hrowg
          rw [← hpe]
          exact (hrowfacts row hrm.1).2)]
        rw [List.map_map]
        rfl
      have hsummap :
          ((sortedKeys rows).map (campaignRow rows)).map (fun c => c.spend) =
            (sortedKeys rows).map
              (fun k => pfSum ((groupRows k rows).map (fun row => row.spend))) := by
        rw [List.map_map]
        rfl
      rw [hsummap]
      have hsumval :
          (sortedKeys rows).map
              (fun k => pfSum ((groupRows k rows).map (fun row => row.spend))) =
            (sortedKeys rows).map
              (fun k =>
                PFloat.val
                  (((groupRows k rows).map (fun row => pfToQ row.spend)).sum)) := by
        apply List.map_congr_left
        intro k _
        exact hgroup_val k
      rw [hsumval]
      have hlhs :
          pfSum ((sortedKeys rows).map
              (fun k =>
                PFloat.val
                  (((groupRows k rows).map (fun row => pfToQ row.spend)).sum))) =
            PFloat.val
              (((sortedKeys rows).map
                (fun k =>
                  ((groupRows k rows).map (fun row => pfToQ row.spend)).sum)).sum) := by
        rw [pfSum_allVal _ (by
          intro p hp
          obtain ⟨k, _, hpe⟩ := List.mem_map.mp hp
          rw [← hpe]
          rfl)]
        rw [List.map_map]
        rfl
      rw [hlhs]
      have hrhs :
          pfSum (rows.map (fun row => row.spend)) =
            PFloat.val ((rows.map (fun row => pfToQ row.spend)).sum) := by
        rw [pfSum_allVal _ (by
          intro p hp
          obtain ⟨row, hrow, hpe⟩ := List.mem_map.mp hp
          rw [← hpe]
          exact (hrowfacts row hrow).2)]
        rw [List.map_map]
        rfl
      rw [hrhs]
      apply congrArg
      apply sum_groups_eq
      · have hperm := List.perm_insertionSort gkeyLE
          ((rows.filterMap rowKey?).dedup)
        exact hperm.symm.nodup (List.nodup_dedup _)
      · intro row hrow
        obtain ⟨⟨s, hs⟩, -⟩ := hrowfacts row hrow
        refine ⟨.str s, ?_, hs⟩
        unfold sortedKeys
        rw [List.mem_insertionSort, List.mem_dedup]
        exact List.mem_filterMap.mpr ⟨row, hrow, hs⟩

/-- Witness for aggregation consistency at the Scenario B input. -/
theorem c5_aggregation_consistency_witness :
    pfSum ((computeMetrics [rowRecB]).campaign_summary.map
        (fun c => c.spend)) =
      (computeMetrics [rowRecB]).total_ad_spend :=
  c5_aggregation_consistency [recB] (computeMetrics [rowRecB])
    (by intro r hr; rw [List.mem_singleton.mp hr]; exact ⟨rfl, rfl⟩) rfl

/-! ## C7: non-negativity -/

theorem pfAdd_nonneg (a b : PFloat) (ha : pfNonneg a = true)
    (hb : pfNonneg b = true) : pfNonneg (pfAdd a b) = true := by
  cases a with
  | nan => exact Bool.noConfusion ha
  | ninf => exact Bool.noConfusion ha
  | inf =>
    cases b with
    | nan => exact Bool.noConfusion hb
    | ninf => exact Bool.noConfusion hb
    | inf => rfl
    | val q => rfl
  | val qa =>
    cases b with
    | nan => exact Bool.noConfusion hb
    | ninf => exact Bool.noConfusion hb
    | inf => rfl
    | val qb =>
      rw [pfAdd_val_val]
      simp only [pfNonneg, decide_eq_true_eq] at ha hb ⊢
      exact add_nonneg ha hb

theorem pfSum_nonneg (l : List PFloat) (h : ∀ p ∈ l, pfNonneg p = true) :
    pfNonneg (pfSum l) = true := by
  induction l with
  | nil => rfl
  | cons p t ih =>
    have hp := h p (List.mem_cons_self _ _)
    have ht := ih (fun x hx => h x (List.mem_cons_of_mem _ hx))
    show pfNonneg (if p = .nan then pfSum t else pfAdd p (pfSum t)) = true
    by_cases hn : p = PFloat.nan
    · rw [if_pos hn]
      exact ht
    · rw [if_neg hn]
      exact pfAdd_nonneg p (pfSum t) hp ht

theorem intSum_nonneg (l : List Int) (h : ∀ x ∈ l, 0 ≤ x) : 0 ≤ l.sum := by
  induction l with
  | nil => simp
  | cons x t ih =>
    rw [List.sum_cons]
    exact add_nonneg (h x (List.mem_cons_self _ _))
      (ih (fun y hy => h y (List.mem_cons_of_mem _ hy)))

/-- C7 amended: if every record coerces cell-wise to non-negative values,
every numeric field of every campaign line is non-negative, as are the four
overall totals (invalid or missing cells still coerce to 0; nothing in the
code clamps negative inputs, so the hypothesis on the records is needed). -/
theorem c7_nonneg_fields (raw : List Record) (m : MetricsResult)
    (hgood : ∀ r ∈ raw, cellsNonneg r = true)
    (h : process_data raw = .ok m) :
    (∀ c ∈ m.campaign_summary,
        pfNonneg c.spend = true ∧ pfNonneg c.sales = true ∧
          0 ≤ c.impressions ∧ 0 ≤ c.clicks ∧ 0 ≤ c.conversions) ∧
      pfNonneg m.total_ad_spend = true ∧ pfNonneg m.total_sales = true ∧
        0 ≤ m.total_impressions ∧ 0 ≤ m.total_clicks := by
  unfold process_data at h
  by_cases hraw : raw.isEmpty
  · rw [if_pos hraw] at h
    cases h
    refine ⟨?_, rfl, rfl, le_refl 0, le_refl 0⟩
    intro c hc
    simp [emptyResult] at hc
  · rw [if_neg hraw] at h
    cases hex : extractRows raw with
    | error e => rw [hex] at h; exact Except.noConfusion h
    | ok rows =>
      rw [hex] at h
      cases h
      have hrowfacts : ∀ row ∈ rows,
          pfNonneg row.spend = true ∧ pfNonneg row.sales = true ∧
            0 ≤ row.impressions ∧ 0 ≤ row.clicks ∧ 0 ≤ row.conversions := by
        intro row hrow
        obtain ⟨r, hr, hro⟩ := extractRows_mem raw rows hex row hrow
        obtain ⟨-, hspend, hsales, himpr, hclicks, hconv⟩ :=
          rowOf_ok_fields r row hro
        have hg := hgood r hr
        unfold cellsNonneg at hg
        simp only [Bool.and_eq_true] at hg
        obtain ⟨⟨⟨⟨h1, h2⟩, h3⟩, h4⟩, h5⟩ := hg
        refine ⟨?_, ?_, ?_, ?_, ?_⟩
        · rw [hspend]; exact h1
        · have := h5
          unfold exNonnegPF at this
          rw [hsales] at this
          exact this
        · have := h2
          unfold exNonnegI at this
          rw [himpr] at this
          simpa using this
        · have := h3
          unfold exNonnegI at this
          rw [hclicks] at this
          simpa using this
        · have := h4
          unfold exNonnegI at this
          rw [hconv] at this
          simpa using this
      refine ⟨?_, ?_, ?_, ?_, ?_⟩
      · intro c hc
        simp only [computeMetrics, List.mem_map] at hc
        obtain ⟨k, -, hk⟩ := hc
        rw [← hk]
        have hsub : ∀ row ∈ groupRows k rows, row ∈ rows := by
          intro row hrow
          exact (List.mem_filter.mp hrow).1
        refine ⟨?_, ?_, ?_, ?_, ?_⟩
        · apply pfSum_nonneg
          intro p hp
          obtain ⟨row, hrow, hpe⟩ := List.mem_map.mp hp
          rw [← hpe]
          exact (hrowfacts row (hsub row hrow)).1
        · apply pfSum_nonneg
          intro p hp
          obtain ⟨row, hrow, hpe⟩ := List.mem_map.mp hp
          rw [← hpe]
          exact (hrowfacts row (hsub row hrow)).2.1
        · apply intSum_nonneg
          intro x hx
          obtain ⟨row, hrow, hpe⟩ := List.mem_map.mp hx
          rw [← hpe]
          exact (hrowfacts row (hsub row hrow)).2.2.1
        · apply intSum_nonneg
          intro x hx
          obtain ⟨row, hrow, hpe⟩ := List.mem_map.mp hx
          rw [← hpe]
          exact (hrowfacts row (hsub row hrow)).2.2.2.1
        · apply intSum_nonneg
          intro x hx
          obtain ⟨row, hrow, hpe⟩ := List.mem_map.mp hx
          rw [← hpe]
          exact (hrowfacts row (hsub row hrow)).2.2.2.2
      · apply pfSum_nonneg
        intro p hp
        obtain ⟨row, hrow, hpe⟩ := List.mem_map.mp hp
        rw [← hpe]
        exact (hrowfacts row hrow).1
      · apply pfSum_nonneg
        intro p hp
        obtain ⟨row, hrow, hpe⟩ := List.mem_map.mp hp
        rw [← hpe]
        exact (hrowfacts row hrow).2.1
      · apply intSum_nonneg
        intro x hx
        obtain ⟨row, hrow, hpe⟩ := List.mem_map.mp hx
        rw [← hpe]
        exact (hrowfacts row hrow).2.2.1
      · apply intSum_nonneg
        intro x hx
        obtain ⟨row, hrow, hpe⟩ := List.mem_map.mp hx
        rw [← hpe]
        exact (hrowfacts row hrow).2.2.2.1

/-- Witness for the non-negativity theorem at the Scenario B input. -/
theorem c7_nonneg_fields_witness :
    pfNonneg (computeMetrics [rowRecB]).total_ad_spend = true :=
  (c7_nonneg_fields [recB] (computeMetrics [rowRecB])
    (by intro r hr; rw [List.mem_singleton.mp hr]; rfl) rfl).2.1

/-! ## C1: totality on well-formed inputs -/

/-- A scan whose scanned prefix passes the well-formedness check returns
without raising; in integer mode the result is moreover finite. -/
theorem scanPurchase_total (finOnly : Bool) :
    ∀ items : List Json, entriesOKb finOnly items = true →
      ∃ pf, scanPurchase items = .ok pf ∧
        (finOnly = true → ∃ q, pf = .val q) := by
  intro items
  induction items with
  | nil => exact fun _ => ⟨.val 0, rfl, fun _ => ⟨0, rfl⟩⟩
  | cons item rest ih =>
    intro hall
    cases item with
    | obj kvs =>
      simp only [entriesOKb] at hall
      cases hat : jlookup kvs kActionType with
      | none =>
        simp only [hat] at hall
        exact Bool.noConfusion hall
      | some t =>
        simp only [hat] at hall
        by_cases hp : jsonIsStr t kPurchase = true
        · rw [if_pos hp] at hall
          cases hv : jlookup kvs kValue with
          | none =>
            simp only [hv] at hall
            exact Bool.noConfusion hall
          | some v =>
            simp only [hv] at hall
            cases hpf : pyFloat v with
            | error e =>
              simp only [hpf] at hall
              exact Bool.noConfusion hall
            | ok pf =>
              refine ⟨pf, ?_, ?_⟩
              · simp only [scanPurchase, hat]
                rw [if_pos hp]
                simp only [hv]
                exact hpf
              · intro hfin
                simp only [hpf] at hall
                cases pf with
                | val q => exact ⟨q, rfl⟩
                | nan =>
                  rw [hfin] at hall
                  exact Bool.noConfusion hall
                | inf =>
                  rw [hfin] at hall
                  exact Bool.noConfusion hall
                | ninf =>
                  rw [hfin] at hall
                  exact Bool.noConfusion hall
        · rw [if_neg hp] at hall
          obtain ⟨pf, hscan, hfin⟩ := ih hall
          refine ⟨pf, ?_, hfin⟩
          simp only [scanPurchase, hat]
          rw [if_neg hp]
          exact hscan
    | null => exact Bool.noConfusion hall
    | bool b => exact Bool.noConfusion hall
    | num q => exact Bool.noConfusion hall
    | str s => exact Bool.noConfusion hall
    | arr xs => exact Bool.noConfusion hall

/-- A record passing the per-record check coerces without raising. -/
theorem rowOf_total (r : Record) (h : recordOKb r = true) :
    ∃ row, rowOf r = .ok row := by
  unfold recordOKb at h
  simp only [Bool.and_eq_true] at h
  obtain ⟨⟨⟨⟨h1, h2⟩, h3⟩, h4⟩, -⟩ := h
  have himpr : ∃ i, imprOf r = .ok i := by
    unfold intCellOKb at h1
    cases hv : fillna0 (toNumeric (jlookup r kImpressions)) with
    | val q =>
      refine ⟨truncQ q, ?_⟩
      unfold imprOf
      rw [hv]
      rfl
    | nan => rw [hv] at h1; exact Bool.noConfusion h1
    | inf => rw [hv] at h1; exact Bool.noConfusion h1
    | ninf => rw [hv] at h1; exact Bool.noConfusion h1
  have hclicks : ∃ c, clicksOf r = .ok c := by
    unfold intCellOKb at h2
    cases hv : fillna0 (toNumeric (jlookup r kClicks)) with
    | val q =>
      refine ⟨truncQ q, ?_⟩
      unfold clicksOf
      rw [hv]
      rfl
    | nan => rw [hv] at h2; exact Bool.noConfusion h2
    | inf => rw [hv] at h2; exact Bool.noConfusion h2
    | ninf => rw [hv] at h2; exact Bool.noConfusion h2
  have hconv : ∃ n, convOf r = .ok n := by
    unfold cellListOKb at h3
    cases hx : jlookup r kActions with
    | none =>
      refine ⟨truncQ 0, ?_⟩
      unfold convOf firstPurchasePF
      rw [hx]
      rfl
    | some v =>
      cases v with
      | arr items =>
        simp only [hx] at h3
        obtain ⟨pf, hscan, hfin⟩ := scanPurchase_total true items h3
        obtain ⟨q, hq⟩ := hfin rfl
        refine ⟨truncQ q, ?_⟩
        have hfp : firstPurchasePF (jlookup r kActions) = .ok (.val q) := by
          rw [hx]
          show scanPurchase items = _
          rw [← hq]
          exact hscan
        unfold convOf
        rw [hfp]
        rfl
      | null =>
        refine ⟨truncQ 0, ?_⟩
        unfold convOf firstPurchasePF
        rw [hx]
        rfl
      | bool b =>
        refine ⟨truncQ 0, ?_⟩
        unfold convOf firstPurchasePF
        rw [hx]
        rfl
      | num q =>
        refine ⟨truncQ 0, ?_⟩
        unfold convOf firstPurchasePF
        rw [hx]
        rfl
      | str s =>
        refine ⟨truncQ 0, ?_⟩
        unfold convOf firstPurchasePF
        rw [hx]
        rfl
      | obj kvs =>
        refine ⟨truncQ 0, ?_⟩
        unfold convOf firstPurchasePF
        rw [hx]
        rfl
  have hsales : ∃ pf, salesOf r = .ok pf := by
    unfold cellListOKb at h4
    cases hx : jlookup r kActionValues with
    | none =>
      refine ⟨.val 0, ?_⟩
      unfold salesOf firstPurchasePF
      rw [hx]
    | some v =>
      cases v with
      | arr items =>
        simp only [hx] at h4
        obtain ⟨pf, hscan, -⟩ := scanPurchase_total false items h4
        refine ⟨pf, ?_⟩
        unfold salesOf firstPurchasePF
        rw [hx]
        exact hscan
      | null =>
        refine ⟨.val 0, ?_⟩
        unfold salesOf firstPurchasePF
        rw [hx]
      | bool b =>
        refine ⟨.val 0, ?_⟩
        unfold salesOf firstPurchasePF
        rw [hx]
      | num q =>
        refine ⟨.val 0, ?_⟩
        unfold salesOf firstPurchasePF
        rw [hx]
      | str s =>
        refine ⟨.val 0, ?_⟩
        unfold salesOf firstPurchasePF
        rw [hx]
      | obj kvs =>
        refine ⟨.val 0, ?_⟩
        unfold salesOf firstPurchasePF
        rw [hx]
  obtain ⟨i, hi⟩ := himpr
  obtain ⟨c, hc⟩ := hclicks
  obtain ⟨n, hn⟩ := hconv
  obtain ⟨pf, hpf⟩ := hsales
  refine ⟨⟨jlookup r kCampaignName, spendOf r, pf, i, c, n⟩, ?_⟩
  unfold rowOf
  rw [hi, hc, hn, hpf]

/-- Sequencing a column of raising-free cells succeeds. -/
theorem colSequence_total {α : Type} :
    ∀ l : List (Except String α), (∀ e ∈ l, ∃ a, e = .ok a) →
      ∃ out, colSequence l = .ok out := by
  intro l
  induction l with
  | nil => exact fun _ => ⟨[], rfl⟩
  | cons e rest ih =>
    intro hall
    obtain ⟨a, ha⟩ := hall e (List.mem_cons_self _ _)
    obtain ⟨out, hout⟩ :=
      ih (fun x hx => hall x (List.mem_cons_of_mem _ hx))
    rw [ha]
    refine ⟨a :: out, ?_⟩
    simp only [colSequence, hout]

/-- C1 amended: `process_data` returns without raising on every well-formed
input: empty, or with the six expected columns each present in at least one
record, the scanned prefix of every `actions`/`action_values` list
raise-free (every entry up to and including the first purchase entry a
mapping carrying an `action_type` key, the first purchase entry's `value`
present and parsing, to a finite number for `actions`; the generator stops
there, so later entries are never scanned and nothing is required of them),
no `impressions`/`clicks` cell parsing to an infinity, and no unhashable
(list/dict) `campaign_name`.  These are sufficient conditions mirroring the
raise sites; some inputs outside them raise (see the counterexample), so
the original unconditional claim fails; within them, every malformed field
degrades to 0/empty as claimed. -/
theorem c1_totality (raw : List Record) (h : wellFormedb raw = true) :
    (process_data raw).isOk = true := by
  unfold wellFormedb at h
  unfold process_data
  by_cases hraw : raw.isEmpty
  · rw [if_pos hraw]
    rfl
  · rw [if_neg hraw]
    rw [Bool.or_eq_true] at h
    rcases h with h | h
    · exact absurd h hraw
    · simp only [Bool.and_eq_true] at h
      obtain ⟨⟨⟨⟨⟨⟨hc1, hc2⟩, hc3⟩, hc4⟩, hc5⟩, hc6⟩, hrec⟩ := h
      have hhash : raw.all keyHashable = true := by
        rw [List.all_eq_true] at hrec ⊢
        intro r hr
        have := hrec r hr
        unfold recordOKb at this
        simp only [Bool.and_eq_true] at this
        exact this.2
      have hrows : ∃ rows, extractRows raw = .ok rows := by
        unfold extractRows
        rw [hc1, hc2, hc3, hc4, hc5, hc6, hhash]
        simp only [Bool.not_true, Bool.false_eq_true, if_false]
        apply colSequence_total
        intro e he
        obtain ⟨r, hr, hre⟩ := List.mem_map.mp he
        rw [List.all_eq_true] at hrec
        obtain ⟨row, hrow⟩ := rowOf_total r (hrec r hr)
        exact ⟨row, by rw [← hre, hrow]⟩
      obtain ⟨rows, hex⟩ := hrows
      rw [hex]
      rfl

/-- Witness for totality at the Scenario B input. -/
theorem c1_totality_witness : (process_data [recB]).isOk = true :=
  c1_totality [recB] (by decide)
